import Mathlib

/-!
# Verification of the personal_dash backend (src/backend/main.go)

Shallow embedding of the Go backend of the personal link dashboard.
The store is the SQLite database as the program configures it:

* `categories(id INTEGER PRIMARY KEY AUTOINCREMENT, name TEXT NOT NULL UNIQUE)`
  — SQLite's `UNIQUE` on a `TEXT` column uses the default BINARY collation,
  so the uniqueness check is byte-exact (case-sensitive).
* `links(id INTEGER PRIMARY KEY AUTOINCREMENT, name TEXT NOT NULL,
  url TEXT NOT NULL, category_id INTEGER NOT NULL,
  FOREIGN KEY(category_id) REFERENCES categories(id) ON DELETE CASCADE)`
  — the connection string is just the file path and the program never issues
  `PRAGMA foreign_keys = ON`; SQLite leaves foreign-key enforcement OFF by
  default, so the declared constraint is inert: inserts and updates of links
  perform no referential check, and the declared cascade never fires (category
  deletion deletes links explicitly inside a transaction instead).

Handlers are modelled as pure functions from the request data and the current
store to an HTTP status code and the next store.  Environmental failures
(I/O errors, statement timeouts) are not modelled except inside the category
deletion transaction, where the spec explicitly talks about mid-transaction
failure; there a `TxFault` parameter says which statement (if any) fails.
-/

/-- A row of the `categories` table. -/
structure CategoryRow where
  id : Int
  name : String
deriving DecidableEq, Repr

/-- A row of the `links` table. -/
structure LinkRow where
  id : Int
  name : String
  url : String
  categoryId : Int
deriving DecidableEq, Repr

/-- The SQLite database state: the two tables plus the AUTOINCREMENT
sequence counters (SQLite's AUTOINCREMENT never reuses ids). -/
structure Store where
  categories : List CategoryRow
  links : List LinkRow
  nextCategoryId : Int
  nextLinkId : Int
deriving DecidableEq, Repr

/-- Go `unicode.IsSpace`: the Unicode White_Space property
(ASCII whitespace, NEL, NBSP and the Unicode space separators). -/
def goIsSpace (c : Char) : Bool :=
  (9 ≤ c.val && c.val ≤ 13) || c.val = 32 ||
  c.val = 0x85 || c.val = 0xA0 || c.val = 0x1680 ||
  (0x2000 ≤ c.val && c.val ≤ 0x200A) ||
  c.val = 0x2028 || c.val = 0x2029 || c.val = 0x202F ||
  c.val = 0x205F || c.val = 0x3000

/-- Go `strings.TrimSpace`: drop leading and trailing whitespace. -/
def goTrimSpace (s : String) : String :=
  String.mk (((s.toList.dropWhile goIsSpace).reverse.dropWhile goIsSpace).reverse)

/-- Go `strconv.ParseInt(s, 10, 64)`: an optional sign followed by at least
one decimal digit, with the value required to fit in a signed 64-bit
integer; anything else is an error (`none`). -/
def parseInt64 (s : String) : Option Int :=
  let (sign, digits) : Int × List Char :=
    match s.toList with
    | '+' :: rest => (1, rest)
    | '-' :: rest => (-1, rest)
    | rest => (1, rest)
  if digits.isEmpty then none
  else if digits.all Char.isDigit then
    let n : Nat := digits.foldl (fun acc c => acc * 10 + (c.toNat - 48)) 0
    let v : Int := sign * (n : Int)
    if -((2 : Int) ^ 63) ≤ v ∧ v ≤ (2 : Int) ^ 63 - 1 then some v else none
  else none

/-- `INSERT INTO categories(name) VALUES(?)`.  The `UNIQUE` constraint on
`name` uses SQLite's default BINARY collation, so the insert fails exactly
when a row with the byte-identical name already exists; `none` models the
driver error whose text contains "unique" (mapped to 409 by the handler). -/
def insertCategory (s : Store) (name : String) : Option Store :=
  if s.categories.any (fun c => c.name = name) then none
  else some { s with
    categories := s.categories ++ [{ id := s.nextCategoryId, name := name }],
    nextCategoryId := s.nextCategoryId + 1 }

/-- `INSERT INTO links(name, url, category_id) VALUES(?, ?, ?)`.
No referential check happens: `PRAGMA foreign_keys` was never enabled on
this connection, so SQLite accepts any `category_id` value. -/
def insertLink (s : Store) (name url : String) (categoryId : Int) : Store :=
  { s with
    links := s.links ++
      [{ id := s.nextLinkId, name := name, url := url, categoryId := categoryId }],
    nextLinkId := s.nextLinkId + 1 }

/-- `UPDATE links SET name = ?, url = ?, category_id = ? WHERE id = ?`.
Rows not matching the id are untouched; zero matching rows is not an error.
As with insert, no referential check is applied to the new `category_id`. -/
def updateLink (s : Store) (id : Int) (name url : String) (categoryId : Int) : Store :=
  { s with
    links := s.links.map (fun l =>
      if l.id = id then { l with name := name, url := url, categoryId := categoryId }
      else l) }

/-- `DELETE FROM links WHERE id = ?`.  Zero matching rows is not an error. -/
def deleteLink (s : Store) (id : Int) : Store :=
  { s with links := s.links.filter (fun l => l.id ≠ id) }

/-- Which statement of the category-deletion transaction fails, if any
(`BeginTx`, the links delete, the category delete, or `Commit`). -/
inductive TxFault where
  | none
  | atBegin
  | atDeleteLinks
  | atDeleteCategory
  | atCommit
deriving DecidableEq, Repr

/-- The transaction body of `handleCategoryActions`: inside `BeginTx` run
`DELETE FROM links WHERE category_id = ?` then
`DELETE FROM categories WHERE id = ?` then `Commit`; the deferred
`tx.Rollback()` discards the working state on any failure, so an error
leaves the caller's store untouched (`Except.error`). -/
def deleteCategoryTx (s : Store) (categoryId : Int) (fault : TxFault) :
    Except Unit Store :=
  match fault with
  | .atBegin => .error ()
  | _ =>
    let s1 := { s with links := s.links.filter (fun l => l.categoryId ≠ categoryId) }
    match fault with
    | .atDeleteLinks => .error ()
    | _ =>
      let s2 := { s1 with categories := s1.categories.filter (fun c => c.id ≠ categoryId) }
      match fault with
      | .atDeleteCategory => .error ()
      | .atCommit => .error ()
      | _ => .ok s2

/-- `handleHealth`: writes 200 "ok" without ever looking at the request
method (the handler takes the request but ignores it). -/
def handleHealth (s : Store) (_method : String) : Nat × Store :=
  (200, s)

/-- `handleDashboard`: GET only; renders the dashboard (rendering itself
does not change the store). -/
def handleDashboard (s : Store) (method : String) : Nat × Store :=
  if method ≠ "GET" then (405, s)
  else (200, s)

/-- `handleCreateCategory`: POST only; trims the `name` form field, rejects
an empty result with 400, inserts, and maps a unique-constraint failure
(the driver error text contains "unique") to 409. -/
def handleCreateCategory (s : Store) (method : String) (name : String) :
    Nat × Store :=
  if method ≠ "POST" then (405, s)
  else
    let trimmed := goTrimSpace name
    if trimmed = "" then (400, s)
    else
      match insertCategory s trimmed with
      | none => (409, s)
      | some s2 => (200, s2)

/-- `handleCategoryActions`: POST only; the path must be `{id}/delete`
(else 404); the id must parse as a 64-bit integer (else 400); then the
deletion transaction runs, any failure giving 500 with the store rolled
back, success giving 200. -/
def handleCategoryActions (s : Store) (method : String)
    (idText action : String) (fault : TxFault) : Nat × Store :=
  if method ≠ "POST" then (405, s)
  else if action ≠ "delete" then (404, s)
  else
    match parseInt64 idText with
    | Option.none => (400, s)
    | some categoryId =>
      match deleteCategoryTx s categoryId fault with
      | .error _ => (500, s)
      | .ok s2 => (200, s2)

/-- `handleCreateLink`: POST only; trims `name`, `url`, `category_id`;
any of them empty gives 400; a non-numeric `category_id` gives 400;
otherwise the row is inserted (with no referential check, see
`insertLink`). -/
def handleCreateLink (s : Store) (method : String)
    (name url categoryIdText : String) : Nat × Store :=
  if method ≠ "POST" then (405, s)
  else
    let n := goTrimSpace name
    let u := goTrimSpace url
    let cText := goTrimSpace categoryIdText
    if n = "" ∨ u = "" ∨ cText = "" then (400, s)
    else
      match parseInt64 cText with
      | Option.none => (400, s)
      | some categoryId => (200, insertLink s n u categoryId)

/-- `handleUpdateLink` (reached from `handleLinkActions`): same field
validation as create, then a full-replace UPDATE of the row with that id;
zero matched rows still succeeds. -/
def handleUpdateLink (s : Store) (id : Int)
    (name url categoryIdText : String) : Nat × Store :=
  let n := goTrimSpace name
  let u := goTrimSpace url
  let cText := goTrimSpace categoryIdText
  if n = "" ∨ u = "" ∨ cText = "" then (400, s)
  else
    match parseInt64 cText with
    | Option.none => (400, s)
    | some categoryId => (200, updateLink s id n u categoryId)

/-- `handleDeleteLink` (reached from `handleLinkActions`): delete the row;
zero matched rows still succeeds. -/
def handleDeleteLink (s : Store) (id : Int) : Nat × Store :=
  (200, deleteLink s id)

/-- `handleLinkActions`: POST only; the path is `{id}/{action}`; a
non-numeric id gives 400; the action selects delete or update, anything
else 404. -/
def handleLinkActions (s : Store) (method : String)
    (idText action : String) (name url categoryIdText : String) : Nat × Store :=
  if method ≠ "POST" then (405, s)
  else
    match parseInt64 idText with
    | Option.none => (400, s)
    | some id =>
      if action = "delete" then handleDeleteLink s id
      else if action = "update" then handleUpdateLink s id name url categoryIdText
      else (404, s)

/-! ## The dashboard aggregator (`getDashboardData`) -/

/-- The Go view struct `dashboardLink` (ids rendered as decimal strings by
`strconv.FormatInt`). -/
structure dashboardLink where
  ID : String
  CategoryID : String
  Name : String
  URL : String
deriving DecidableEq, Repr

/-- The Go view struct `dashboardCategory`. -/
structure dashboardCategory where
  ID : String
  Name : String
  Links : List dashboardLink
deriving DecidableEq, Repr

/-- The Go view struct `dashboardData`. -/
structure dashboardData where
  Categories : List dashboardCategory
deriving DecidableEq, Repr

/-- The view entry built for one category row: id formatted as a decimal
string, and an empty (non-nil) links slice. -/
def mkDashCategory (row : CategoryRow) : dashboardCategory :=
  { ID := toString row.id, Name := row.name, Links := [] }

/-- The view entry built for one link row. -/
def mkDashLink (l : LinkRow) : dashboardLink :=
  { ID := toString l.id, CategoryID := toString l.categoryId,
    Name := l.name, URL := l.url }

/-- Assignment into the Go map `categoryMap` (`map[int64]*dashboardCategory`,
modelled as an association list from id to position in the slice):
assigning to an existing key overwrites it. -/
def mapPut (m : List (Int × Nat)) (k : Int) (v : Nat) : List (Int × Nat) :=
  match m with
  | [] => [(k, v)]
  | (k2, v2) :: rest => if k2 = k then (k, v) :: rest else (k2, v2) :: mapPut rest k v

/-- Lookup in the Go map `categoryMap`. -/
def mapGet (m : List (Int × Nat)) (k : Int) : Option Nat :=
  match m with
  | [] => none
  | (k2, v) :: rest => if k2 = k then some v else mapGet rest k

/-- The category-rows loop of `getDashboardData`: append a view entry per
row and record its position in `categoryMap`.  (The Go code stores
`&categories[len(categories)-1]`, a pointer to the just-appended slice
element; it is modelled as the element's index.) -/
def buildCategories (rows : List CategoryRow) :
    List dashboardCategory × List (Int × Nat) :=
  rows.foldl
    (fun acc row => (acc.1 ++ [mkDashCategory row], mapPut acc.2 row.id acc.1.length))
    ([], [])

/-- `parentCategory.Links = append(parentCategory.Links, …)` through the
map pointer: extend the links of the entry at position `i`. -/
def appendLinkAt (cats : List dashboardCategory) (i : Nat) (l : dashboardLink) :
    List dashboardCategory :=
  match cats.get? i with
  | some c => cats.set i { c with Links := c.Links ++ [l] }
  | none => cats

/-- The link-rows loop of `getDashboardData`: a link whose `category_id` is
found in `categoryMap` is attached to that category; otherwise it is
skipped. -/
def attachLinks (cats : List dashboardCategory) (m : List (Int × Nat))
    (links : List LinkRow) : List dashboardCategory :=
  links.foldl
    (fun cs l =>
      match mapGet m l.categoryId with
      | some i => appendLinkAt cs i (mkDashLink l)
      | none => cs)
    cats

/-- Go `strings.ToLower` as used by the sort comparisons: lower-case every
character. -/
def goToLower (s : String) : String :=
  String.mk (s.toList.map Char.toLower)

/-- The case-folded key a name is compared by: `strings.ToLower(name)` as a
character sequence.  Go compares strings byte-wise; lexicographic order on
the code-point sequence is the same order for valid UTF-8 text. -/
def nameKey (s : String) : List Char :=
  (goToLower s).toList

/-- The comparison on categories used by the final sort:
`strings.ToLower(name)` compared lexicographically.  `sort.Slice` is given
the strict order; what it guarantees of its output is exactly sortedness
by the non-strict complement, which for a linear order is this `≤`. -/
def catLE (a b : dashboardCategory) : Prop :=
  nameKey a.Name ≤ nameKey b.Name

/-- The comparison on links used by the per-category sort. -/
def linkLE (a b : dashboardLink) : Prop :=
  nameKey a.Name ≤ nameKey b.Name

instance : DecidableRel catLE := fun a b =>
  inferInstanceAs (Decidable (nameKey a.Name ≤ nameKey b.Name))

instance : DecidableRel linkLE := fun a b =>
  inferInstanceAs (Decidable (nameKey a.Name ≤ nameKey b.Name))

instance : IsTotal dashboardCategory catLE :=
  ⟨fun a b => le_total (nameKey a.Name) (nameKey b.Name)⟩

instance : IsTrans dashboardCategory catLE :=
  ⟨fun _ _ _ h1 h2 => le_trans h1 h2⟩

instance : IsTotal dashboardLink linkLE :=
  ⟨fun a b => le_total (nameKey a.Name) (nameKey b.Name)⟩

instance : IsTrans dashboardLink linkLE :=
  ⟨fun _ _ _ h1 h2 => le_trans h1 h2⟩

/-- `getDashboardData`: read all categories, read all links, join them via
`categoryMap`, then sort categories case-insensitively by name and each
category's links case-insensitively by name.  `sort.Slice` guarantees a
permutation of its input sorted by the comparison; `List.insertionSort`
realises that contract. -/
def getDashboardData (s : Store) : dashboardData :=
  let built := buildCategories s.categories
  let withLinks := attachLinks built.1 built.2 s.links
  let sortedCats := List.insertionSort catLE withLinks
  { Categories :=
      sortedCats.map (fun c => { c with Links := List.insertionSort linkLE c.Links }) }

/-! ## Helper lemmas -/

/-- Mapping a function that fixes every element of a list leaves it
unchanged. -/
theorem map_eq_self_of_forall {α : Type} {f : α → α} :
    ∀ {l : List α}, (∀ x ∈ l, f x = x) → l.map f = l := by
  intro l
  induction l with
  | nil => intro _; rfl
  | cons a as ih =>
    intro h
    simp only [List.map_cons, h a (List.mem_cons_self a as)]
    rw [ih (fun x hx => h x (List.mem_cons_of_mem a hx))]

/-- The empty string never parses as an integer. -/
theorem parseInt64_empty : parseInt64 "" = none := by decide

/-- A parsed `category_id` text cannot be empty. -/
theorem parse_ne_empty {t : String} {v : Int} (h : parseInt64 t = some v) :
    t ≠ "" := by
  intro he
  rw [he, parseInt64_empty] at h
  cases h

/-! ## Sample stores used by witnesses and counterexamples -/

/-- A store holding one category "Dev" (id 1) and no links. -/
def devStore : Store :=
  { categories := [{ id := 1, name := "Dev" }], links := [],
    nextCategoryId := 2, nextLinkId := 1 }

/-- The store of a fresh database. -/
def emptyStore : Store :=
  { categories := [], links := [], nextCategoryId := 1, nextLinkId := 1 }

/-- A store with two categories and three links, one of them dangling. -/
def richStore : Store :=
  { categories := [{ id := 1, name := "beta" }, { id := 2, name := "Alpha" }],
    links := [{ id := 1, name := "z", url := "u1", categoryId := 2 },
              { id := 2, name := "A", url := "u2", categoryId := 2 },
              { id := 3, name := "q", url := "u3", categoryId := 7 }],
    nextCategoryId := 3, nextLinkId := 4 }

/-! ## C1 -/

/-- C1 counterexample: with category "Dev" stored, POSTing
`/actions/categories/create` with name "dev" — differing from "Dev" only by
letter case — is NOT rejected with 409: the `UNIQUE` constraint compares
with SQLite's BINARY collation, so the insert succeeds with 200 and a
second category row appears. -/
theorem c1_case_insensitive_counterexample :
    (handleCreateCategory devStore "POST" "dev").1 = 200 ∧
    (handleCreateCategory devStore "POST" "dev").2.categories =
      [{ id := 1, name := "Dev" }, { id := 2, name := "dev" }] := by
  decide

/-- C1 amended: only a create whose trimmed name is byte-identical
(case-sensitively equal) to an existing category's name is rejected with
409 "already exists", leaving the store (hence the existing row)
unchanged; a name differing only by case is inserted as a new category. -/
theorem c1_exact_duplicate_conflict (s : Store) (name : String)
    (hne : goTrimSpace name ≠ "")
    (hdup : ∃ c ∈ s.categories, c.name = goTrimSpace name) :
    handleCreateCategory s "POST" name = (409, s) := by
  obtain ⟨c, hc, hname⟩ := hdup
  have hany : s.categories.any (fun c => c.name = goTrimSpace name) = true :=
    List.any_eq_true.mpr ⟨c, hc, by simp [hname]⟩
  simp [handleCreateCategory, hne, insertCategory, hany]

/-- C1 witness: creating " Dev " (trimming to the stored "Dev") against
`devStore` is rejected with 409 and the store is unchanged. -/
theorem c1_exact_duplicate_conflict_witness :
    goTrimSpace " Dev " ≠ "" ∧
    handleCreateCategory devStore "POST" " Dev " = (409, devStore) :=
  ⟨by decide,
   c1_exact_duplicate_conflict devStore " Dev " (by decide)
     ⟨{ id := 1, name := "Dev" }, by decide, by decide⟩⟩

/-! ## C7 -/

/-- C7: a create-category request whose name trims to the empty string is
answered 400 and the store is unchanged (the handler rejects before any
insert). -/
theorem c7_blank_name_rejected (s : Store) (name : String)
    (h : goTrimSpace name = "") :
    handleCreateCategory s "POST" name = (400, s) := by
  simp [handleCreateCategory, h]

/-- C7 witness: a whitespace-only name is rejected with 400 on `devStore`. -/
theorem c7_blank_name_rejected_witness :
    goTrimSpace "  \t " = "" ∧
    handleCreateCategory devStore "POST" "  \t " = (400, devStore) :=
  ⟨by decide, c7_blank_name_rejected devStore "  \t " (by decide)⟩

/-! ## C9 -/

/-- C9 counterexample: `handleHealth` never inspects the request method, so
a POST to `/health` is answered 200, not 405 as the claim requires for
every route. -/
theorem c9_health_counterexample :
    (handleHealth devStore "POST").1 = 200 ∧
    (handleHealth devStore "POST").1 ≠ 405 := by
  decide

/-- C9 amended: every route except `/health` answers 405 to a request
whose method is not the specified one; `/health` answers 200 to every
method (its handler ignores the method). -/
theorem c9_wrong_method (s : Store) (m : String)
    (name url idText action cidText : String) (fault : TxFault) :
    (handleHealth s m).1 = 200 ∧
    (m ≠ "GET" → (handleDashboard s m).1 = 405) ∧
    (m ≠ "POST" →
      (handleCreateCategory s m name).1 = 405 ∧
      (handleCategoryActions s m idText action fault).1 = 405 ∧
      (handleCreateLink s m name url cidText).1 = 405 ∧
      (handleLinkActions s m idText action name url cidText).1 = 405) := by
  refine ⟨rfl, fun h => ?_, fun h => ?_⟩
  · simp [handleDashboard, h]
  · refine ⟨?_, ?_, ?_, ?_⟩ <;>
      simp [handleCreateCategory, handleCategoryActions, handleCreateLink,
        handleLinkActions, h]

/-- C9 witness: a PUT request gets 405 on the dashboard and on category
creation, and 200 on `/health`. -/
theorem c9_wrong_method_witness :
    ("PUT" ≠ "GET") ∧ ("PUT" ≠ "POST") ∧
    (handleHealth devStore "PUT").1 = 200 ∧
    (handleDashboard devStore "PUT").1 = 405 ∧
    (handleCreateCategory devStore "PUT" "x").1 = 405 :=
  ⟨by decide, by decide,
   (c9_wrong_method devStore "PUT" "x" "u" "1" "delete" "1" TxFault.none).1,
   (c9_wrong_method devStore "PUT" "x" "u" "1" "delete" "1" TxFault.none).2.1
     (by decide),
   ((c9_wrong_method devStore "PUT" "x" "u" "1" "delete" "1" TxFault.none).2.2
     (by decide)).1⟩

/-! ## C10 -/

/-- C10: for a numeric id matching no stored link, both
`/actions/links/{id}/delete` and `/actions/links/{id}/update` (with valid
fields) answer 200 — and hence the re-rendered dashboard fragment — while
changing no row; neither reports a not-found condition. -/
theorem c10_missing_link_silent_success (s : Store) (idText : String) (id : Int)
    (name url cidText : String) (cid : Int)
    (hid : parseInt64 idText = some id)
    (hmiss : ∀ l ∈ s.links, l.id ≠ id)
    (hn : goTrimSpace name ≠ "") (hu : goTrimSpace url ≠ "")
    (hcid : parseInt64 (goTrimSpace cidText) = some cid) :
    handleLinkActions s "POST" idText "delete" name url cidText = (200, s) ∧
    handleLinkActions s "POST" idText "update" name url cidText = (200, s) := by
  have hct : goTrimSpace cidText ≠ "" := parse_ne_empty hcid
  have hfilter : s.links.filter (fun l => l.id ≠ id) = s.links :=
    List.filter_eq_self.mpr (fun l hl => by simpa using hmiss l hl)
  have hmap :
      s.links.map (fun l =>
        if l.id = id then
          { l with name := goTrimSpace name, url := goTrimSpace url, categoryId := cid }
        else l) = s.links :=
    map_eq_self_of_forall (fun l hl => by simp [hmiss l hl])
  have hdel : deleteLink s id = s := by
    unfold deleteLink
    rw [hfilter]
  have hupd : updateLink s id (goTrimSpace name) (goTrimSpace url) cid = s := by
    unfold updateLink
    rw [hmap]
  constructor
  · simp [handleLinkActions, hid, handleDeleteLink, hdel]
  · simp [handleLinkActions, hid, handleUpdateLink, hn, hu, hct, hcid, hupd]

/-- C10 witness: on `devStore` (which has no links), deleting and updating
link id 9 both answer 200 and leave the store unchanged. -/
theorem c10_missing_link_silent_success_witness :
    parseInt64 "9" = some 9 ∧
    handleLinkActions devStore "POST" "9" "delete" "Repo" "https://x" "1" =
      (200, devStore) ∧
    handleLinkActions devStore "POST" "9" "update" "Repo" "https://x" "1" =
      (200, devStore) :=
  ⟨by decide,
   (c10_missing_link_silent_success devStore "9" 9 "Repo" "https://x" "1" 1
      (by decide) (by decide) (by decide) (by decide) (by decide)).1,
   (c10_missing_link_silent_success devStore "9" 9 "Repo" "https://x" "1" 1
      (by decide) (by decide) (by decide) (by decide) (by decide)).2⟩

/-! ## C2 -/

/-- C2: the referential constraint is declared but never enforced — the
connection never enables SQLite's foreign-key pragma — so on an empty
database (no category exists at all) creating a link with `category_id` 1
succeeds with 200 and stores a link whose `categoryId` references no
category row; updating that link to the equally nonexistent category 99
also succeeds.  The claim that such writes are rejected is false of the
code. -/
theorem c2_fk_not_enforced :
    (handleCreateLink emptyStore "POST" "Repo" "https://x" "1").1 = 200 ∧
    (handleCreateLink emptyStore "POST" "Repo" "https://x" "1").2.links =
      [{ id := 1, name := "Repo", url := "https://x", categoryId := 1 }] ∧
    (handleCreateLink emptyStore "POST" "Repo" "https://x" "1").2.categories = [] ∧
    (handleLinkActions (handleCreateLink emptyStore "POST" "Repo" "https://x" "1").2
        "POST" "1" "update" "Repo" "https://x" "99").1 = 200 ∧
    (handleLinkActions (handleCreateLink emptyStore "POST" "Repo" "https://x" "1").2
        "POST" "1" "update" "Repo" "https://x" "99").2.links =
      [{ id := 1, name := "Repo", url := "https://x", categoryId := 99 }] := by
  decide

/-! ## C8 -/

/-- C8 counterexample: a successful link create whose submitted url is
" https://x " (surrounding whitespace) stores "https://x": the handler
trims the url before the INSERT, so the stored value differs from the
submitted one. -/
theorem c8_url_trimmed_counterexample :
    (handleCreateLink devStore "POST" "Repo" " https://x " "1").1 = 200 ∧
    ((handleCreateLink devStore "POST" "Repo" " https://x " "1").2.links.map
      LinkRow.url) = ["https://x"] ∧
    (" https://x " : String) ≠ "https://x" := by
  decide

/-- C8 amended: for every successful link create or update, the stored url
is the submitted url with surrounding whitespace trimmed
(`strings.TrimSpace`); no other validation, normalization or
transformation is applied, so a url without surrounding whitespace is
stored verbatim. -/
theorem c8_url_stored_trimmed (s : Store) (idText : String) (id : Int)
    (name url cidText : String) (cid : Int)
    (hid : parseInt64 idText = some id)
    (hn : goTrimSpace name ≠ "") (hu : goTrimSpace url ≠ "")
    (hcid : parseInt64 (goTrimSpace cidText) = some cid) :
    ((handleCreateLink s "POST" name url cidText).1 = 200 ∧
      ∃ row : LinkRow,
        (handleCreateLink s "POST" name url cidText).2.links = s.links ++ [row] ∧
        row.url = goTrimSpace url) ∧
    ((handleLinkActions s "POST" idText "update" name url cidText).1 = 200 ∧
      ∀ l ∈ (handleLinkActions s "POST" idText "update" name url cidText).2.links,
        l.id = id → l.url = goTrimSpace url) := by
  have hct : goTrimSpace cidText ≠ "" := parse_ne_empty hcid
  have hcreate : handleCreateLink s "POST" name url cidText =
      (200, insertLink s (goTrimSpace name) (goTrimSpace url) cid) := by
    simp [handleCreateLink, hn, hu, hct, hcid]
  have hupdate : handleLinkActions s "POST" idText "update" name url cidText =
      (200, updateLink s id (goTrimSpace name) (goTrimSpace url) cid) := by
    simp [handleLinkActions, hid, handleUpdateLink, hn, hu, hct, hcid]
  refine ⟨⟨by rw [hcreate], ?_⟩, by rw [hupdate], ?_⟩
  · exact ⟨⟨s.nextLinkId, goTrimSpace name, goTrimSpace url, cid⟩,
      by rw [hcreate]; rfl, rfl⟩
  · intro l hl hlid
    rw [hupdate] at hl
    simp only [updateLink] at hl
    obtain ⟨l0, hl0, hfl⟩ := List.mem_map.mp hl
    by_cases h0 : l0.id = id
    · rw [if_pos h0] at hfl
      rw [← hfl]
    · rw [if_neg h0] at hfl
      rw [← hfl] at hlid
      exact absurd hlid h0

/-- C8 witness: updating the (present) link 1 of `richStore` with url
" https://y " stores "https://y"; creating a link likewise stores the
trimmed url. -/
theorem c8_url_stored_trimmed_witness :
    goTrimSpace " https://y " = "https://y" ∧
    (∃ row : LinkRow,
        (handleCreateLink richStore "POST" "Repo" " https://y " "1").2.links =
          richStore.links ++ [row] ∧
        row.url = goTrimSpace " https://y ") ∧
    (∀ l ∈ (handleLinkActions richStore "POST" "1" "update" "Repo"
        " https://y " "1").2.links,
      l.id = 1 → l.url = goTrimSpace " https://y ") :=
  ⟨by decide,
   (c8_url_stored_trimmed richStore "1" 1 "Repo" " https://y " "1" 1
      (by decide) (by decide) (by decide) (by decide)).1.2,
   (c8_url_stored_trimmed richStore "1" 1 "Repo" " https://y " "1" 1
      (by decide) (by decide) (by decide) (by decide)).2.2⟩

/-! ## C3 -/

/-- C3: a successful category deletion removes exactly the category row
with the requested id and exactly the links whose `categoryId` equals it
(a row survives iff it was present and does not match), and the
transaction is atomic: if any step fails (begin, either delete statement,
or commit), the response is 500 and no row is removed. -/
theorem c3_category_delete_atomic (s : Store) (idText : String) (cid : Int)
    (hid : parseInt64 idText = some cid) :
    ((handleCategoryActions s "POST" idText "delete" TxFault.none).1 = 200 ∧
      (∀ c : CategoryRow,
        c ∈ (handleCategoryActions s "POST" idText "delete" TxFault.none).2.categories ↔
          (c ∈ s.categories ∧ c.id ≠ cid)) ∧
      (∀ l : LinkRow,
        l ∈ (handleCategoryActions s "POST" idText "delete" TxFault.none).2.links ↔
          (l ∈ s.links ∧ l.categoryId ≠ cid))) ∧
    (∀ fault : TxFault, fault ≠ TxFault.none →
      handleCategoryActions s "POST" idText "delete" fault = (500, s)) := by
  constructor
  · have hok : handleCategoryActions s "POST" idText "delete" TxFault.none =
        (200, { s with
          categories := s.categories.filter (fun c => c.id ≠ cid),
          links := s.links.filter (fun l => l.categoryId ≠ cid) }) := by
      simp [handleCategoryActions, hid, deleteCategoryTx]
    refine ⟨by rw [hok], fun c => ?_, fun l => ?_⟩
    · rw [hok]
      simp [List.mem_filter]
    · rw [hok]
      simp [List.mem_filter]
  · intro fault hf
    cases fault with
    | none => exact absurd rfl hf
    | atBegin => simp [handleCategoryActions, hid, deleteCategoryTx]
    | atDeleteLinks => simp [handleCategoryActions, hid, deleteCategoryTx]
    | atDeleteCategory => simp [handleCategoryActions, hid, deleteCategoryTx]
    | atCommit => simp [handleCategoryActions, hid, deleteCategoryTx]

/-- C3 witness: deleting category 2 of `richStore` with a fault at commit
answers 500 and leaves the store unchanged; the fault-free run answers
200 and the surviving link rows are exactly those not owned by
category 2. -/
theorem c3_category_delete_atomic_witness :
    parseInt64 "2" = some 2 ∧
    handleCategoryActions richStore "POST" "2" "delete" TxFault.atCommit =
      (500, richStore) ∧
    (({ id := 3, name := "q", url := "u3", categoryId := 7 } : LinkRow) ∈
        (handleCategoryActions richStore "POST" "2" "delete" TxFault.none).2.links ↔
      (({ id := 3, name := "q", url := "u3", categoryId := 7 } : LinkRow) ∈
        richStore.links ∧ (7 : Int) ≠ 2)) :=
  ⟨by decide,
   (c3_category_delete_atomic richStore "2" 2 (by decide)).2 TxFault.atCommit
     (by decide),
   ((c3_category_delete_atomic richStore "2" 2 (by decide)).1.2.2
     { id := 3, name := "q", url := "u3", categoryId := 7 })⟩

/-! ## Lemmas about the aggregator's join -/

/-- Unfolding the link loop one step. -/
theorem attachLinks_cons (cs : List dashboardCategory) (m : List (Int × Nat))
    (lr : LinkRow) (rest : List LinkRow) :
    attachLinks cs m (lr :: rest) =
      attachLinks
        (match mapGet m lr.categoryId with
          | some i => appendLinkAt cs i (mkDashLink lr)
          | none => cs) m rest := rfl

/-- One step of the link loop when the link's category is absent from the
map: the link is skipped. -/
theorem attachLinks_cons_none (cs : List dashboardCategory)
    (m : List (Int × Nat)) (lr : LinkRow) (rest : List LinkRow)
    (h : mapGet m lr.categoryId = none) :
    attachLinks cs m (lr :: rest) = attachLinks cs m rest := by
  rw [attachLinks_cons, h]

/-- One step of the link loop when the link's category is at position `i`:
the link is attached there. -/
theorem attachLinks_cons_some (cs : List dashboardCategory)
    (m : List (Int × Nat)) (lr : LinkRow) (rest : List LinkRow) (i : Nat)
    (h : mapGet m lr.categoryId = some i) :
    attachLinks cs m (lr :: rest) =
      attachLinks (appendLinkAt cs i (mkDashLink lr)) m rest := by
  rw [attachLinks_cons, h]

/-- Looking up the key just assigned returns the assigned value. -/
theorem mapGet_mapPut_self (m : List (Int × Nat)) (k : Int) (v : Nat) :
    mapGet (mapPut m k v) k = some v := by
  induction m with
  | nil => simp [mapPut, mapGet]
  | cons kv rest ih =>
    by_cases h : kv.1 = k
    · simp [mapPut, mapGet, h]
    · simp [mapPut, mapGet, h, ih]

/-- Assigning one key leaves every other key's lookup unchanged. -/
theorem mapGet_mapPut_ne (m : List (Int × Nat)) (k : Int) (v : Nat)
    (k' : Int) (hk : k' ≠ k) :
    mapGet (mapPut m k v) k' = mapGet m k' := by
  induction m with
  | nil => simp [mapPut, mapGet, Ne.symm hk]
  | cons kv rest ih =>
    by_cases h : kv.1 = k
    · simp [mapPut, mapGet, h, Ne.symm hk]
    · by_cases h' : kv.1 = k'
      · simp [mapPut, mapGet, h, h', hk]
      · simp [mapPut, mapGet, h, h', ih]

/-- The category loop appends one view entry per row, in row order. -/
theorem build_fold_fst (rows : List CategoryRow) :
    ∀ acc : List dashboardCategory × List (Int × Nat),
    (rows.foldl (fun acc row =>
        (acc.1 ++ [mkDashCategory row], mapPut acc.2 row.id acc.1.length)) acc).1 =
      acc.1 ++ rows.map mkDashCategory := by
  induction rows with
  | nil => intro acc; simp
  | cons r rs ih =>
    intro acc
    rw [List.foldl_cons, ih]
    simp

/-- The slice built by the category loop is the rows mapped to view
entries. -/
theorem buildCategories_fst (rows : List CategoryRow) :
    (buildCategories rows).1 = rows.map mkDashCategory := by
  simpa [buildCategories] using build_fold_fst rows ([], [])

/-- Soundness of `categoryMap`: an index stored for key `k` points at a row
whose id is `k`. -/
theorem build_fold_sound (rows : List CategoryRow) :
    ∀ (processed : List CategoryRow) (m : List (Int × Nat)),
    (∀ k i, mapGet m k = some i → ∃ row, processed.get? i = some row ∧ row.id = k) →
    ∀ k i,
      mapGet (rows.foldl (fun acc row =>
          (acc.1 ++ [mkDashCategory row], mapPut acc.2 row.id acc.1.length))
          (processed.map mkDashCategory, m)).2 k = some i →
      ∃ row, (processed ++ rows).get? i = some row ∧ row.id = k := by
  induction rows with
  | nil =>
    intro processed m hm k i h
    simpa using hm k i h
  | cons r rs ih =>
    intro processed m hm k i h
    rw [List.foldl_cons] at h
    have hstep :
        (processed.map mkDashCategory ++ [mkDashCategory r],
          mapPut m r.id (processed.map mkDashCategory).length) =
        ((processed ++ [r]).map mkDashCategory, mapPut m r.id processed.length) := by
      simp
    rw [hstep] at h
    have hm' : ∀ k i, mapGet (mapPut m r.id processed.length) k = some i →
        ∃ row, (processed ++ [r]).get? i = some row ∧ row.id = k := by
      intro k i hg
      by_cases hk : k = r.id
      · subst hk
        rw [mapGet_mapPut_self] at hg
        obtain rfl : processed.length = i := by
          simpa using hg
        exact ⟨r, List.get?_concat_length processed r, rfl⟩
      · rw [mapGet_mapPut_ne m r.id processed.length k hk] at hg
        obtain ⟨row, hrow, hrid⟩ := hm k i hg
        have hlt : i < processed.length := (List.get?_eq_some.mp hrow).1
        exact ⟨row, by rw [List.get?_append hlt]; exact hrow, hrid⟩
    have := ih (processed ++ [r]) (mapPut m r.id processed.length) hm' k i h
    simpa using this

/-- Soundness of `categoryMap` for the full build. -/
theorem buildCategories_sound (rows : List CategoryRow) (k : Int) (i : Nat)
    (h : mapGet (buildCategories rows).2 k = some i) :
    ∃ row, rows.get? i = some row ∧ row.id = k := by
  have h0 : ∀ k i, mapGet ([] : List (Int × Nat)) k = some i →
      ∃ row, ([] : List CategoryRow).get? i = some row ∧ row.id = k := by
    intro k i hg
    simp [mapGet] at hg
  simpa using build_fold_sound rows [] [] h0 k i h

/-- Attaching a link never changes the number of view entries. -/
theorem appendLinkAt_length (cs : List dashboardCategory) (i : Nat)
    (l : dashboardLink) : (appendLinkAt cs i l).length = cs.length := by
  unfold appendLinkAt
  cases h : cs.get? i <;> simp

/-- The link loop never changes the number of view entries. -/
theorem attachLinks_length (m : List (Int × Nat)) :
    ∀ (ls : List LinkRow) (cs : List dashboardCategory),
    (attachLinks cs m ls).length = cs.length := by
  intro ls
  induction ls with
  | nil => intro cs; rfl
  | cons lr rest ih =>
    intro cs
    cases hm : mapGet m lr.categoryId with
    | none => rw [attachLinks_cons_none cs m lr rest hm, ih]
    | some i =>
      rw [attachLinks_cons_some cs m lr rest i hm, ih, appendLinkAt_length]

/-- What the link loop does to the entry at position `j`: its identity is
untouched and its links grow by exactly those processed links that the
map sent to position `j`. -/
theorem attachLinks_get? (m : List (Int × Nat)) :
    ∀ (ls : List LinkRow) (cs : List dashboardCategory) (j : Nat)
      (c : dashboardCategory), cs.get? j = some c →
    ∃ extra : List dashboardLink,
      (attachLinks cs m ls).get? j = some { c with Links := c.Links ++ extra } ∧
      ∀ l ∈ extra, ∃ lr ∈ ls, l = mkDashLink lr ∧ mapGet m lr.categoryId = some j := by
  intro ls
  induction ls with
  | nil =>
    intro cs j c h
    refine ⟨[], ?_, by simp⟩
    simpa [attachLinks] using h
  | cons lr rest ih =>
    intro cs j c h
    cases hm : mapGet m lr.categoryId with
    | none =>
      rw [attachLinks_cons_none cs m lr rest hm]
      obtain ⟨extra, h1, h2⟩ := ih cs j c h
      refine ⟨extra, h1, fun l hl => ?_⟩
      obtain ⟨lr', hlr', hrest⟩ := h2 l hl
      exact ⟨lr', List.mem_cons_of_mem lr hlr', hrest⟩
    | some i =>
      rw [attachLinks_cons_some cs m lr rest i hm]
      by_cases hij : i = j
      · subst hij
        have hlt : i < cs.length := (List.get?_eq_some.mp h).1
        have happ : appendLinkAt cs i (mkDashLink lr) =
            cs.set i { c with Links := c.Links ++ [mkDashLink lr] } := by
          unfold appendLinkAt
          rw [h]
        have hset : (cs.set i { c with Links := c.Links ++ [mkDashLink lr] }).get? i =
            some { c with Links := c.Links ++ [mkDashLink lr] } :=
          List.get?_set_eq_of_lt _ hlt
        obtain ⟨extra, h1, h2⟩ :=
          ih (cs.set i { c with Links := c.Links ++ [mkDashLink lr] }) i
            { c with Links := c.Links ++ [mkDashLink lr] } hset
        refine ⟨mkDashLink lr :: extra, ?_, ?_⟩
        · rw [happ]
          simpa [List.append_assoc] using h1
        · intro l hl
          rcases List.mem_cons.mp hl with hl | hl
          · exact ⟨lr, List.mem_cons_self lr rest, hl, hm⟩
          · obtain ⟨lr', hlr', hrest⟩ := h2 l hl
            exact ⟨lr', List.mem_cons_of_mem lr hlr', hrest⟩
      · have hkeep : (appendLinkAt cs i (mkDashLink lr)).get? j = some c := by
          unfold appendLinkAt
          cases hci : cs.get? i with
          | none => exact h
          | some ci => rw [List.get?_set_ne _ _ hij]; exact h
        obtain ⟨extra, h1, h2⟩ := ih _ j c hkeep
        refine ⟨extra, h1, fun l hl => ?_⟩
        obtain ⟨lr', hlr', hrest⟩ := h2 l hl
        exact ⟨lr', List.mem_cons_of_mem lr hlr', hrest⟩

/-- The view's category list, written out. -/
theorem getDashboardData_eq (s : Store) :
    (getDashboardData s).Categories =
      (List.insertionSort catLE
        (attachLinks (buildCategories s.categories).1 (buildCategories s.categories).2
          s.links)).map
        (fun c => { c with Links := List.insertionSort linkLE c.Links }) := rfl

/-! ## C4 -/

/-- C4: for every store state the view lists categories in ascending
case-insensitive order of name, and within each category the links in
ascending case-insensitive order of name, whatever the row order read
from the store. -/
theorem c4_view_sorted (s : Store) :
    List.Sorted catLE (getDashboardData s).Categories ∧
    ∀ c ∈ (getDashboardData s).Categories, List.Sorted linkLE c.Links := by
  constructor
  · rw [getDashboardData_eq]
    exact List.Pairwise.map _ (fun a b hab => hab)
      (List.sorted_insertionSort catLE _)
  · intro c hc
    rw [getDashboardData_eq] at hc
    obtain ⟨c₁, _, rfl⟩ := List.mem_map.mp hc
    exact List.sorted_insertionSort linkLE c₁.Links

/-- C4 witness: on `richStore` (inserted out of order: "beta" before
"Alpha", links "z" before "A") the rendered categories and the links of
the "Alpha" entry are sorted. -/
theorem c4_view_sorted_witness :
    List.Sorted catLE (getDashboardData richStore).Categories ∧
    List.Sorted linkLE (dashboardCategory.mk "2" "Alpha"
      [⟨"2", "2", "A", "u2"⟩, ⟨"1", "2", "z", "u1"⟩]).Links :=
  ⟨(c4_view_sorted richStore).1,
   (c4_view_sorted richStore).2
     (dashboardCategory.mk "2" "Alpha"
       [⟨"2", "2", "A", "u2"⟩, ⟨"1", "2", "z", "u1"⟩]) (by decide)⟩

/-! ## C5 -/

/-- C5: every link shown anywhere in the view arises from a stored link
row whose `categoryId` is the id of a category present in the store; a
link with a dangling `categoryId` is excluded from the view. -/
theorem c5_no_dangling_links (s : Store) :
    ∀ c ∈ (getDashboardData s).Categories, ∀ l ∈ c.Links,
      ∃ lr ∈ s.links, l = mkDashLink lr ∧
        ∃ row ∈ s.categories, row.id = lr.categoryId := by
  intro c hc l hl
  rw [getDashboardData_eq] at hc
  obtain ⟨c₁, hmem, rfl⟩ := List.mem_map.mp hc
  have hl' : l ∈ c₁.Links := (List.mem_insertionSort linkLE).mp hl
  have hmem' : c₁ ∈ attachLinks (buildCategories s.categories).1
      (buildCategories s.categories).2 s.links :=
    (List.mem_insertionSort catLE).mp hmem
  obtain ⟨j, hj⟩ := List.mem_iff_get?.mp hmem'
  have hlen : j < (buildCategories s.categories).1.length := by
    have h1 := (List.get?_eq_some.mp hj).1
    rwa [attachLinks_length] at h1
  have hjrows : j < s.categories.length := by
    rwa [buildCategories_fst, List.length_map] at hlen
  obtain ⟨row, hrowj⟩ : ∃ row, s.categories.get? j = some row :=
    ⟨_, List.get?_eq_get hjrows⟩
  have hc0m : (buildCategories s.categories).1.get? j =
      some (mkDashCategory row) := by
    rw [buildCategories_fst, List.get?_map, hrowj]
    rfl
  obtain ⟨extra, hget, hextra⟩ :=
    attachLinks_get? (buildCategories s.categories).2 s.links
      (buildCategories s.categories).1 j (mkDashCategory row) hc0m
  rw [hj] at hget
  have hc₁ : c₁ = { mkDashCategory row with
      Links := (mkDashCategory row).Links ++ extra } := Option.some.inj hget
  have hlex : l ∈ extra := by
    rw [hc₁] at hl'
    simpa [mkDashCategory] using hl'
  obtain ⟨lr, hlr, hlmk, hmget⟩ := hextra l hlex
  obtain ⟨row', hrow', hrid⟩ :=
    buildCategories_sound s.categories lr.categoryId j hmget
  exact ⟨lr, hlr, hlmk, row', List.get?_mem hrow', hrid⟩

/-- C5 witness: in `richStore` the rendered link "A" resolves to stored
link row 2, whose category 2 is present (while link row 3, referencing
the absent category 7, is nowhere in the view). -/
theorem c5_no_dangling_links_witness :
    ∃ lr ∈ richStore.links,
      (⟨"2", "2", "A", "u2"⟩ : dashboardLink) = mkDashLink lr ∧
        ∃ row ∈ richStore.categories, row.id = lr.categoryId :=
  c5_no_dangling_links richStore
    (dashboardCategory.mk "2" "Alpha"
      [⟨"2", "2", "A", "u2"⟩, ⟨"1", "2", "z", "u1"⟩]) (by decide)
    ⟨"2", "2", "A", "u2"⟩ (by decide)

/-! ## C6 -/

/-- C6: every stored category appears in the view with its id and name,
and a category owning zero links appears with an empty (never nil — the
loop initialises it to the empty slice) link list. -/
theorem c6_all_categories_present (s : Store) :
    ∀ row ∈ s.categories,
      ∃ c ∈ (getDashboardData s).Categories,
        c.ID = toString row.id ∧ c.Name = row.name ∧
        ((∀ l ∈ s.links, l.categoryId ≠ row.id) → c.Links = []) := by
  intro row hrow
  obtain ⟨j, hj⟩ := List.mem_iff_get?.mp hrow
  have hc0m : (buildCategories s.categories).1.get? j =
      some (mkDashCategory row) := by
    rw [buildCategories_fst, List.get?_map, hj]
    rfl
  obtain ⟨extra, hget, hextra⟩ :=
    attachLinks_get? (buildCategories s.categories).2 s.links
      (buildCategories s.categories).1 j (mkDashCategory row) hc0m
  have hmem : ({ mkDashCategory row with
      Links := (mkDashCategory row).Links ++ extra }) ∈
        attachLinks (buildCategories s.categories).1
          (buildCategories s.categories).2 s.links :=
    List.get?_mem hget
  refine ⟨dashboardCategory.mk (toString row.id) row.name
      (List.insertionSort linkLE extra), ?_, rfl, rfl, ?_⟩
  · rw [getDashboardData_eq]
    exact List.mem_map_of_mem
      (fun c => { c with Links := List.insertionSort linkLE c.Links })
      ((List.mem_insertionSort catLE).mpr hmem)
  · intro hnl
    have hex : extra = [] := by
      cases hx : extra with
      | nil => rfl
      | cons l tail =>
        exfalso
        have hl : l ∈ extra := by
          rw [hx]
          exact List.mem_cons_self l tail
        obtain ⟨lr, hlr, _, hmget⟩ := hextra l hl
        obtain ⟨row', hrow', hrid⟩ :=
          buildCategories_sound s.categories lr.categoryId j hmget
        rw [hj] at hrow'
        have hrr : row = row' := Option.some.inj hrow'
        apply hnl lr hlr
        rw [hrr]
        exact hrid.symm
    show List.insertionSort linkLE extra = []
    rw [hex]
    rfl

/-- C6 witness: in `richStore` the category "beta" (id 1) owns zero links
and appears in the view with an empty link list. -/
theorem c6_all_categories_present_witness :
    ∃ c ∈ (getDashboardData richStore).Categories,
      c.ID = toString (1 : Int) ∧ c.Name = "beta" ∧
      ((∀ l ∈ richStore.links, l.categoryId ≠ (1 : Int)) → c.Links = []) :=
  c6_all_categories_present richStore ⟨1, "beta"⟩ (by decide)
